import Mathlib

/-!
# Verification of the velox-core directory scanner

A shallow embedding of the `src-tauri` Rust sources of the velox-core
repository: the data model (`types.rs`), the session registry (`state.rs`)
and the traversal / progress-streaming scanner (`scanner.rs`).

Modelling conventions:
* Rust `u64`/`usize` counters become `Nat` (the scanner only adds small
  filesystem quantities; wrap-around is unreachable and no claim concerns it).
* The `f64` field `progress_percent` only ever holds the literals `0.0` and
  `100.0` in the source, so it is embedded as a `Nat` percentage.
* The filesystem walked by the external `walkdir` crate is modelled as a
  rose tree `FsTree`; `walkTree` reproduces `WalkDir::new(root)
  .max_depth(d).follow_links(f).into_iter().filter_entry(p)`:
  depth-first pre-order, root at depth 0, entries beyond `max_depth`
  neither yielded nor descended into, and the hidden-name predicate applied
  to every yielded entry (the root included) with pruning of rejected
  directories.  A `symlink` node's `target` field holds the fully resolved
  target (`none` for a broken link); with `follow_links` the walker yields
  the target's file type and metadata and descends into target directories,
  without it the symlink is a leaf.
* Nondeterministic, environment-supplied values (the cancellation flag as
  read at each per-node check, the result of each elapsed-time throttling
  comparison, the monotonic clock, UUID generation, wall-clock timestamps)
  are supplied as oracles, one reading per loop step.
* The progress mpsc channel is FIFO with a single producer and consumer,
  so it is embedded as the ordered list of snapshots sent on it; the
  relay task (`scanner.rs` lines 80-92) is a filter over that list.
* The external `human_bytes` formatter is opaque to every claim; it is
  embedded as an injective placeholder rendering of the byte count.
-/

/-- `ScanStatus` from `types.rs`. -/
inductive ScanStatus where
  | idle
  | scanning
  | completed
  | cancelled
  | error
deriving DecidableEq, Repr

/-- The subset of `std::fs::Metadata` the scanner reads: `len()`,
`modified()`, `created()` (the latter two already rendered to RFC 3339
strings, as the scanner does). -/
structure Meta where
  len : Nat
  modified : Option String
  created : Option String
deriving DecidableEq, Repr

/-- A filesystem tree as seen by the `walkdir` traversal.  A `symlink`'s
`target` is its fully resolved target (`none` when broken). -/
inductive FsTree where
  | file (name : String) (meta : Option Meta) : FsTree
  | dir (name : String) (meta : Option Meta) (children : List FsTree) : FsTree
  | symlink (name : String) (meta : Option Meta) (target : Option FsTree) : FsTree
deriving Repr

/-- The file name (final path component) of a node. -/
def FsTree.name : FsTree → String
  | .file n _ => n
  | .dir n _ _ => n
  | .symlink n _ _ => n

/-- `ScanConfig` from `scanner.rs`. -/
structure ScanConfig where
  max_depth : Nat
  include_hidden : Bool
  follow_symlinks : Bool
  progress_interval_ms : Nat
deriving DecidableEq, Repr

/-- `ScanConfig::default()` from `scanner.rs`. -/
def ScanConfig.default : ScanConfig :=
  { max_depth := 100
    include_hidden := false
    follow_symlinks := false
    progress_interval_ms := 50 }

/-- `FileEntry` from `types.rs`. -/
structure FileEntry where
  id : String
  name : String
  path : String
  size : Nat
  size_formatted : String
  is_directory : Bool
  is_file : Bool
  is_symlink : Bool
  extension : Option String
  modified : Option String
  created : Option String
  depth : Nat
  children_count : Option Nat
deriving DecidableEq, Repr

/-- `ScanProgress` from `types.rs`. -/
structure ScanProgress where
  scan_id : String
  current_path : String
  files_scanned : Nat
  directories_scanned : Nat
  bytes_scanned : Nat
  bytes_scanned_formatted : String
  progress_percent : Nat
  estimated_total : Option Nat
  elapsed_ms : Nat
  status : ScanStatus
deriving DecidableEq, Repr

/-- `ScanResult` from `types.rs`. -/
structure ScanResult where
  scan_id : String
  root_path : String
  total_files : Nat
  total_directories : Nat
  total_size : Nat
  total_size_formatted : String
  entries : List FileEntry
  duration_ms : Nat
  completed_at : String
  status : ScanStatus
deriving DecidableEq, Repr

/-- `VeloxError` from `error.rs` (the `Io` payload reduced to its message). -/
inductive VeloxError where
  | io (msg : String)
  | scanCancelled
  | invalidPath (p : String)
  | accessDenied (p : String)
  | scanInProgress (s : String)
  | noActiveScan (s : String)
  | serialization (e : String)
  | stateLock (e : String)
  | unknown (e : String)
deriving DecidableEq, Repr

/-- Placeholder for the external `human_bytes` crate: no claim inspects the
text of the formatted string, so the byte count is rendered directly. -/
def human_bytes (n : Nat) : String := toString n

/-- The hidden-name convention used by the scanner's filter:
`s.starts_with('.')`, i.e. the first character is a dot. -/
def hiddenName (s : String) : Bool :=
  match s.data with
  | [] => false
  | c :: _ => c == '.'

/-- The `filter_entry` predicate from `scanner.rs` lines 144-153:
when `include_hidden` is off, reject names starting with `'.'`
(`to_str` never fails on the modelled `String` names). -/
def passesFilter (cfg : ScanConfig) (name : String) : Bool :=
  if !cfg.include_hidden then !(hiddenName name) else true

/-- What `walkdir`'s `DirEntry` supplies to the scan loop body:
file name, full path, the three file-type tests, the (optional) metadata
and the depth from the root. -/
structure OkEntry where
  name : String
  path : String
  isDir : Bool
  isFile : Bool
  isSymlink : Bool
  meta : Option Meta
  depth : Nat
deriving DecidableEq, Repr

/-- One item yielded by the (filtered) walkdir iterator: a readable entry
or a per-entry error (`Err(e)` arm of `scanner.rs` lines 244-247). -/
inductive WalkEvent where
  | ok (e : OkEntry) : WalkEvent
  | err : WalkEvent
deriving DecidableEq, Repr

mutual

/-- The filtered `walkdir` iteration over one node situated at `path` and
`depth`: depth-first pre-order; rejected names are pruned together with
their subtrees; children are yielded only while `depth < max_depth`;
followed symlinks take the resolved target's type/metadata/children, while
unfollowed ones are leaves of symlink type. -/
def walkTree (cfg : ScanConfig) (path : String) (depth : Nat) :
    FsTree → List WalkEvent
  | .file n m =>
    if passesFilter cfg n then [.ok ⟨n, path, false, true, false, m, depth⟩]
    else []
  | .dir n m cs =>
    if passesFilter cfg n then
      .ok ⟨n, path, true, false, false, m, depth⟩ ::
        (if depth < cfg.max_depth then walkChildren cfg path (depth + 1) cs
         else [])
    else []
  | .symlink n m none =>
    if passesFilter cfg n then
      if cfg.follow_symlinks then [.err]
      else [.ok ⟨n, path, false, false, true, m, depth⟩]
    else []
  | .symlink n m (some (.file _ m')) =>
    if passesFilter cfg n then
      if cfg.follow_symlinks then [.ok ⟨n, path, false, true, false, m', depth⟩]
      else [.ok ⟨n, path, false, false, true, m, depth⟩]
    else []
  | .symlink n m (some (.dir _ m' cs)) =>
    if passesFilter cfg n then
      if cfg.follow_symlinks then
        .ok ⟨n, path, true, false, false, m', depth⟩ ::
          (if depth < cfg.max_depth then walkChildren cfg path (depth + 1) cs
           else [])
      else [.ok ⟨n, path, false, false, true, m, depth⟩]
    else []
  | .symlink n m (some (.symlink _ _ _)) =>
    if passesFilter cfg n then
      if cfg.follow_symlinks then [.err]
      else [.ok ⟨n, path, false, false, true, m, depth⟩]
    else []

/-- Walk a list of sibling nodes, children of the directory at `parent`. -/
def walkChildren (cfg : ScanConfig) (parent : String) (depth : Nat) :
    List FsTree → List WalkEvent
  | [] => []
  | c :: cs =>
    walkTree cfg (parent ++ "/" ++ c.name) depth c ++
      walkChildren cfg parent depth cs

end

/-- `Path::extension()` applied to an entry's file name: the part after the
last `'.'`, except that a lone leading dot (`".bashrc"`) or no dot at all
gives `none`. -/
def extOf (name : String) : Option String :=
  match name.splitOn "." with
  | [] => none
  | [_] => none
  | "" :: [_] => none
  | _ :: rest => rest.getLast?

/-- The `FileEntry` construction of `scanner.rs` lines 198-222:
`size` is the metadata length with fallback 0, the booleans copy the
file-type tests, timestamps come from the metadata when present, and the
`children_count` placeholder stays empty.  `entryId` stands for the fresh
`uuid::Uuid::new_v4()`. -/
def buildEntry (entryId : String) (e : OkEntry) : FileEntry :=
  let size := (e.meta.map Meta.len).getD 0
  { id := entryId
    name := e.name
    path := e.path
    size := size
    size_formatted := human_bytes size
    is_directory := e.isDir
    is_file := e.isFile
    is_symlink := e.isSymlink
    extension := extOf e.name
    modified := e.meta.bind Meta.modified
    created := e.meta.bind Meta.created
    depth := e.depth
    children_count := none }

/-- Environment oracles for one run of `execute_scan`, one reading per loop
step `i`: the cancellation flag as loaded at the `i`-th per-node check, the
outcome of the `i`-th `last_progress.elapsed >= interval` comparison, the
monotonic clock (`start_time.elapsed().as_millis()`) as read at step `i`
(step `events.length` is the final read producing `duration_ms`), the
UUID generated for the `i`-th entry, and the terminal wall-clock stamp. -/
structure Oracles where
  checkFlag : Nat → Bool
  progressDue : Nat → Bool
  clock : Nat → Nat
  mkId : Nat → String
  now : String

/-- The scanner's mutable traversal state: the three counters, the entry
accumulator, and the ordered list of snapshots sent on the progress
channel. -/
structure LoopState where
  totalFiles : Nat
  totalDirs : Nat
  totalSize : Nat
  entries : List FileEntry
  sent : List ScanProgress
deriving DecidableEq, Repr

/-- The initial traversal state of `execute_scan` (lines 135-138). -/
def initState : LoopState :=
  { totalFiles := 0, totalDirs := 0, totalSize := 0, entries := [], sent := [] }

/-- The cancellation snapshot of `scanner.rs` lines 163-174. -/
def cancelSnapshot (scanId : String) (st : LoopState) (elapsed : Nat) :
    ScanProgress :=
  { scan_id := scanId
    current_path := ""
    files_scanned := st.totalFiles
    directories_scanned := st.totalDirs
    bytes_scanned := st.totalSize
    bytes_scanned_formatted := human_bytes st.totalSize
    progress_percent := 0
    estimated_total := none
    elapsed_ms := elapsed
    status := .cancelled }

/-- The throttled mid-scan snapshot of `scanner.rs` lines 228-239. -/
def scanningSnapshot (scanId currentPath : String) (st : LoopState)
    (elapsed : Nat) : ScanProgress :=
  { scan_id := scanId
    current_path := currentPath
    files_scanned := st.totalFiles
    directories_scanned := st.totalDirs
    bytes_scanned := st.totalSize
    bytes_scanned_formatted := human_bytes st.totalSize
    progress_percent := 0
    estimated_total := none
    elapsed_ms := elapsed
    status := .scanning }

/-- The terminal snapshot of `scanner.rs` lines 254-265. -/
def finalSnapshot (scanId : String) (st : LoopState) (durationMs : Nat) :
    ScanProgress :=
  { scan_id := scanId
    current_path := ""
    files_scanned := st.totalFiles
    directories_scanned := st.totalDirs
    bytes_scanned := st.totalSize
    bytes_scanned_formatted := human_bytes st.totalSize
    progress_percent := 100
    estimated_total := some (st.totalFiles + st.totalDirs)
    elapsed_ms := durationMs
    status := .completed }

/-- Outcome of the traversal loop: stopped by cancellation, or the whole
iterator exhausted. -/
inductive LoopOut where
  | cancelled (st : LoopState) : LoopOut
  | finished (st : LoopState) : LoopOut
deriving DecidableEq, Repr

/-- The body of the `Ok(entry)` arm of the traversal loop (`scanner.rs`
lines 180-243): update the counters (`total_size` only for files), append
the constructed `FileEntry`, then send a throttled Scanning snapshot when
the `progress_interval_ms` comparison fired. -/
def okStep (scanId : String) (o : Oracles) (i : Nat) (st : LoopState)
    (e : OkEntry) : LoopState :=
  let size := (e.meta.map Meta.len).getD 0
  let st1 :=
    if e.isDir then { st with totalDirs := st.totalDirs + 1 }
    else if e.isFile then
      { st with totalFiles := st.totalFiles + 1,
                totalSize := st.totalSize + size }
    else st
  let st2 := { st1 with entries := st1.entries ++ [buildEntry (o.mkId i) e] }
  if o.progressDue i then
    { st2 with sent := st2.sent ++ [scanningSnapshot scanId e.path st2 (o.clock i)] }
  else st2

/-- The `for entry_result in walker` loop of `scanner.rs` lines 157-249,
at step index `i` with state `st`: check the cancellation flag first (on
cancellation, send one Cancelled snapshot and stop); on an `Ok` entry run
`okStep`; on an `Err` just continue. -/
def scanLoop (scanId : String) (o : Oracles) :
    List WalkEvent → Nat → LoopState → LoopOut
  | [], _, st => .finished st
  | ev :: rest, i, st =>
    if o.checkFlag i then
      .cancelled { st with sent := st.sent ++ [cancelSnapshot scanId st (o.clock i)] }
    else
      match ev with
      | .err => scanLoop scanId o rest (i + 1) st
      | .ok e => scanLoop scanId o rest (i + 1) (okStep scanId o i st e)

/-- `execute_scan` (lines 128-279) on an already-produced walker event
stream: run the loop from the zero state; on cancellation return the
`ScanCancelled` error, otherwise send the terminal snapshot and assemble
the `ScanResult`.  The second component is the full ordered sequence of
snapshots sent on the progress channel. -/
def execute_scan_events (scanId rootPath : String) (o : Oracles)
    (events : List WalkEvent) :
    Except VeloxError ScanResult × List ScanProgress :=
  match scanLoop scanId o events 0 initState with
  | .cancelled st => (.error .scanCancelled, st.sent)
  | .finished st =>
    let durationMs := o.clock events.length
    (.ok
      { scan_id := scanId
        root_path := rootPath
        total_files := st.totalFiles
        total_directories := st.totalDirs
        total_size := st.totalSize
        total_size_formatted := human_bytes st.totalSize
        entries := st.entries
        duration_ms := durationMs
        completed_at := o.now
        status := .completed },
     st.sent ++ [finalSnapshot scanId st durationMs])

/-- `execute_scan` over a filesystem tree rooted at `rootPath`: the walker
events are produced by the filtered `walkdir` iteration. -/
def execute_scan (cfg : ScanConfig) (scanId rootPath : String) (o : Oracles)
    (root : FsTree) : Except VeloxError ScanResult × List ScanProgress :=
  execute_scan_events scanId rootPath o (walkTree cfg rootPath 0 root)

/-- `DirectoryScanner::scan` validation prologue (lines 62-72): the root
must exist (`none` models a missing path) and be a directory; only then is
`execute_scan` run. -/
def scan (cfg : ScanConfig) (scanId rootPath : String) (o : Oracles) :
    Option FsTree → Except VeloxError ScanResult × List ScanProgress
  | none => (.error (.invalidPath rootPath), [])
  | some root =>
    match root with
    | .dir n m cs => execute_scan cfg scanId rootPath o (.dir n m cs)
    | _ => (.error (.invalidPath (rootPath ++ " is not a directory")), [])

/-- The progress-relay task of `scanner.rs` lines 80-92, receiving the
`i`-th snapshot: forward it when the 50 ms throttle elapsed
(`elapsedOk i`) or its status is not `Scanning`; otherwise drop it. -/
def relayAux (elapsedOk : Nat → Bool) : Nat → List ScanProgress → List ScanProgress
  | _, [] => []
  | i, p :: ps =>
    if elapsedOk i ∨ ¬ p.status = ScanStatus.scanning then
      p :: relayAux elapsedOk (i + 1) ps
    else relayAux elapsedOk (i + 1) ps

/-- The snapshots the relay forwards to the observer, in channel order. -/
def relay (elapsedOk : Nat → Bool) (ps : List ScanProgress) : List ScanProgress :=
  relayAux elapsedOk 0 ps

/-- `ScanSession` from `types.rs` (the `AtomicBool` behind the `Arc`
embedded as its Boolean value). -/
structure ScanSession where
  id : String
  root_path : String
  started_at : String
  status : ScanStatus
  cancelled : Bool
deriving DecidableEq, Repr

/-- `ScanSession::new` (types.rs lines 136-144): fresh sessions start
`Idle` with a clear cancellation flag.  `id` and `startedAt` stand for the
generated UUID and `Utc::now()`. -/
def ScanSession.new (id rootPath startedAt : String) : ScanSession :=
  { id := id
    root_path := rootPath
    started_at := startedAt
    status := .idle
    cancelled := false }

/-- `ScanSession::cancel` (types.rs lines 150-152). -/
def ScanSession.cancel (s : ScanSession) : ScanSession :=
  { s with cancelled := true }

/-- `VeloxState` from `state.rs`: the `HashMap<String, Arc<ScanSession>>`
embedded as an association list keyed by session id. -/
structure VeloxState where
  active_scans : List (String × ScanSession)
deriving DecidableEq, Repr

/-- `VeloxState::new`. -/
def VeloxState.new : VeloxState := { active_scans := [] }

/-- `VeloxState::get_scan`: map lookup. -/
def VeloxState.get_scan (s : VeloxState) (scanId : String) : Option ScanSession :=
  (s.active_scans.find? (fun p => p.1 = scanId)).map Prod.snd

/-- `VeloxState::register_scan`: insert under the session's id (HashMap
insert replaces any previous binding). -/
def VeloxState.register_scan (s : VeloxState) (sess : ScanSession) : VeloxState :=
  { active_scans :=
      (sess.id, sess) :: s.active_scans.filter (fun p => ¬ p.1 = sess.id) }

/-- `VeloxState::remove_scan`. -/
def VeloxState.remove_scan (s : VeloxState) (scanId : String) : VeloxState :=
  { active_scans := s.active_scans.filter (fun p => ¬ p.1 = scanId) }

/-- `VeloxState::active_scan_count` (state.rs lines 82-85): the number of
registered sessions whose status is `Scanning`. -/
def VeloxState.active_scan_count (s : VeloxState) : Nat :=
  (s.active_scans.filter (fun p => p.2.status = ScanStatus.scanning)).length

/-- `VeloxState::cancel_scan` (state.rs lines 87-95): look the session up;
if found, set its cancellation flag and return `true`, otherwise return
`false` and leave the state untouched.  The session's `AtomicBool` is
shared through the `Arc`, so flagging it updates the registered record. -/
def VeloxState.cancel_scan (s : VeloxState) (scanId : String) :
    Bool × VeloxState :=
  match s.get_scan scanId with
  | some _ =>
    (true,
     { active_scans :=
         s.active_scans.map (fun p =>
           if p.1 = scanId then (p.1, p.2.cancel) else p) })
  | none => (false, s)

/-- The registry operations the command layer (`commands.rs`) performs on
`VeloxState`.  Sessions enter the map only through
`ScanSession::new(path)` followed by `register_scan` (commands.rs lines
27-28); nothing in the repository ever writes a session's `status` field
after construction. -/
inductive RegOp where
  | register (id rootPath startedAt : String) : RegOp
  | cancel (scanId : String) : RegOp
  | remove (scanId : String) : RegOp
deriving DecidableEq, Repr

/-- Apply one registry operation. -/
def applyOp (s : VeloxState) : RegOp → VeloxState
  | .register id rootPath startedAt =>
    s.register_scan (ScanSession.new id rootPath startedAt)
  | .cancel scanId => (s.cancel_scan scanId).2
  | .remove scanId => s.remove_scan scanId

/-- Run a sequence of registry operations. -/
def runOps (s : VeloxState) : List RegOp → VeloxState
  | [] => s
  | op :: ops => runOps (applyOp s op) ops

/-- A walker entry carries exactly one of the three file-type marks:
directory, file, or (unfollowed) symlink. -/
def OneKind (e : OkEntry) : Prop :=
  (e.isDir = true ∧ e.isFile = false ∧ e.isSymlink = false) ∨
  (e.isDir = false ∧ e.isFile = true ∧ e.isSymlink = false) ∨
  (e.isDir = false ∧ e.isFile = false ∧ e.isSymlink = true)

instance (e : OkEntry) : Decidable (OneKind e) := by
  unfold OneKind
  infer_instance

/-- The snapshot ordering of the monotonicity property: componentwise `≤`
on the three cumulative counters. -/
def ProgLE (a b : ScanProgress) : Prop :=
  a.files_scanned ≤ b.files_scanned ∧
  a.directories_scanned ≤ b.directories_scanned ∧
  a.bytes_scanned ≤ b.bytes_scanned

instance (a b : ScanProgress) : Decidable (ProgLE a b) := by
  unfold ProgLE
  infer_instance

/-- Total bytes of the file entries of a list: the sum of `size` over the
entries with `is_file = true`. -/
def fileBytes (l : List FileEntry) : Nat :=
  ((l.filter fun e => e.is_file).map FileEntry.size).sum

/-- Invariant of the traversal state: the snapshots sent so far are
pairwise monotone in the three counters, and each is bounded by the
current counters. -/
def SentInv (st : LoopState) : Prop :=
  st.sent.Pairwise ProgLE ∧
  ∀ p ∈ st.sent, p.files_scanned ≤ st.totalFiles ∧
    p.directories_scanned ≤ st.totalDirs ∧ p.bytes_scanned ≤ st.totalSize

/-- Extract the payload of a successful scan (proof scaffolding only; the
`error` fallback is never reached where it is used). -/
def extractOk (x : Except VeloxError ScanResult) : ScanResult :=
  match x with
  | .ok r => r
  | .error _ =>
    { scan_id := "", root_path := "", total_files := 0, total_directories := 0,
      total_size := 0, total_size_formatted := "", entries := [],
      duration_ms := 0, completed_at := "", status := .error }

/-- A deterministic oracle bundle with the cancellation flag never set. -/
def quietOracle : Oracles :=
  { checkFlag := fun _ => false
    progressDue := fun _ => false
    clock := fun i => i
    mkId := fun i => toString i
    now := "2026-01-01T00:00:00Z" }

/-- An oracle bundle whose cancellation flag is set from the start. -/
def cancelledOracle : Oracles :=
  { checkFlag := fun _ => true
    progressDue := fun _ => false
    clock := fun i => i
    mkId := fun i => toString i
    now := "2026-01-01T00:00:00Z" }

/-- Sample tree: a root with three files and a subdirectory holding one
file (the spec's worked scenario). -/
def demoTree : FsTree :=
  .dir "r" (some ⟨64, none, none⟩)
    [.file "a.txt" (some ⟨10, none, none⟩),
     .file "b.txt" (some ⟨20, none, none⟩),
     .file "c.txt" (some ⟨30, none, none⟩),
     .dir "d" (some ⟨64, none, none⟩) [.file "e.txt" (some ⟨5, none, none⟩)]]

/-- Sample tree: a root holding one unfollowed symlink. -/
def symTree : FsTree :=
  .dir "r" (some ⟨64, none, none⟩) [.symlink "l" (some ⟨7, none, none⟩) none]

/-- Sample tree: a hidden root (name starting with a dot). -/
def hiddenTree : FsTree :=
  .dir ".h" (some ⟨64, none, none⟩) [.file "a.txt" (some ⟨5, none, none⟩)]

/-- Sample tree: a root directory whose metadata reports 4096 bytes. -/
def meta4096Tree : FsTree := .dir "r" (some ⟨4096, none, none⟩) []

/-- Sample tree with a hidden subdirectory holding a file. -/
def hiddenSubTree : FsTree :=
  .dir "r" (some ⟨64, none, none⟩)
    [.file "a.txt" (some ⟨10, none, none⟩),
     .dir ".git" (some ⟨64, none, none⟩) [.file "cfg" (some ⟨9, none, none⟩)]]

/-- Sample tree: an empty hidden root. -/
def hiddenEmptyTree : FsTree := .dir ".h" (some ⟨64, none, none⟩) []

/-- The default configuration with `max_depth` set to 0. -/
def depth0Cfg : ScanConfig := { ScanConfig.default with max_depth := 0 }

/-- Concrete run of the scanner over `demoTree`. -/
def demoPair : Except VeloxError ScanResult × List ScanProgress :=
  execute_scan ScanConfig.default "s" "/r" quietOracle demoTree

/-- The (successful) result of the `demoTree` run. -/
def demoResult : ScanResult := extractOk demoPair.1

/-- Concrete run of the scanner over `symTree`. -/
def symPair : Except VeloxError ScanResult × List ScanProgress :=
  execute_scan ScanConfig.default "s" "/r" quietOracle symTree

/-- The (successful) result of the `symTree` run. -/
def symResult : ScanResult := extractOk symPair.1

/-- Concrete run of the scanner over `meta4096Tree`. -/
def metaPair : Except VeloxError ScanResult × List ScanProgress :=
  execute_scan ScanConfig.default "s" "/r" quietOracle meta4096Tree

/-- The (successful) result of the `meta4096Tree` run. -/
def metaResult : ScanResult := extractOk metaPair.1

/-- Concrete run of the scanner over `hiddenSubTree`. -/
def hiddenScanPair : Except VeloxError ScanResult × List ScanProgress :=
  execute_scan ScanConfig.default "s" "/r" quietOracle hiddenSubTree

/-- The (successful) result of the `hiddenSubTree` run. -/
def hiddenScanResult : ScanResult := extractOk hiddenScanPair.1

/-- Concrete max_depth = 0 run over a root with one child file. -/
def depth0Pair : Except VeloxError ScanResult × List ScanProgress :=
  execute_scan depth0Cfg "s" "/r" quietOracle
    (.dir "r" (some ⟨64, none, none⟩) [.file "a.txt" (some ⟨5, none, none⟩)])

/-- The (successful) result of the max_depth = 0 run. -/
def depth0Result : ScanResult := extractOk depth0Pair.1

/-- Concrete max_depth = 0 run over the hidden root `hiddenTree`. -/
def depth0HiddenPair : Except VeloxError ScanResult × List ScanProgress :=
  execute_scan depth0Cfg "s" "/.h" quietOracle hiddenTree

/-- The (successful, empty) result of the hidden-root max_depth = 0 run. -/
def depth0HiddenResult : ScanResult := extractOk depth0HiddenPair.1

/-- The readable entries of a walker event stream, in order (the `Ok`
arms the loop body constructs a FileEntry from). -/
def okEvents (events : List WalkEvent) : List OkEntry :=
  events.filterMap fun ev =>
    match ev with
    | .ok e => some e
    | .err => none

/-- Sample tree: a root directory whose metadata reports 4096 bytes
holding one file whose metadata cannot be read. -/
def fallbackTree : FsTree :=
  .dir "r" (some ⟨4096, none, none⟩) [.file "a.txt" none]

/-- Concrete run of the scanner over `fallbackTree`. -/
def fallbackPair : Except VeloxError ScanResult × List ScanProgress :=
  execute_scan ScanConfig.default "s" "/r" quietOracle fallbackTree

/-- The (successful) result of the `fallbackTree` run. -/
def fallbackResult : ScanResult := extractOk fallbackPair.1

/-! ## Loop unfolding lemmas -/

theorem scanLoop_nil (scanId : String) (o : Oracles) (i : Nat) (st : LoopState) :
    scanLoop scanId o [] i st = .finished st := by
  rw [scanLoop]

theorem scanLoop_cons_flag (scanId : String) (o : Oracles) (ev : WalkEvent)
    (rest : List WalkEvent) (i : Nat) (st : LoopState)
    (h : o.checkFlag i = true) :
    scanLoop scanId o (ev :: rest) i st =
      .cancelled
        { st with sent := st.sent ++ [cancelSnapshot scanId st (o.clock i)] } := by
  simp only [scanLoop, h, if_true]

theorem scanLoop_cons_err (scanId : String) (o : Oracles)
    (rest : List WalkEvent) (i : Nat) (st : LoopState)
    (h : o.checkFlag i = false) :
    scanLoop scanId o (.err :: rest) i st = scanLoop scanId o rest (i + 1) st := by
  simp only [scanLoop, h, Bool.false_eq_true, if_false]

theorem scanLoop_cons_ok (scanId : String) (o : Oracles) (e : OkEntry)
    (rest : List WalkEvent) (i : Nat) (st : LoopState)
    (h : o.checkFlag i = false) :
    scanLoop scanId o (.ok e :: rest) i st =
      scanLoop scanId o rest (i + 1) (okStep scanId o i st e) := by
  simp only [scanLoop, h, Bool.false_eq_true, if_false]

/-! ## Walk structure lemmas -/

theorem sizeOf_mem_children (c : FsTree) {cs : List FsTree} (hc : c ∈ cs)
    (nm : String) (m : Option Meta) : sizeOf c < sizeOf (FsTree.dir nm m cs) := by
  have h := List.sizeOf_lt_of_mem hc
  simp only [FsTree.dir.sizeOf_spec]
  omega

theorem sizeOf_mem_symlink_children (c : FsTree) {cs : List FsTree}
    (hc : c ∈ cs) (nm n2 : String) (m m2 : Option Meta) :
    sizeOf c < sizeOf (FsTree.symlink nm m (some (.dir n2 m2 cs))) := by
  have h := List.sizeOf_lt_of_mem hc
  simp only [FsTree.symlink.sizeOf_spec, FsTree.dir.sizeOf_spec,
    Option.some.sizeOf_spec]
  omega

theorem walkChildren_mem (cfg : ScanConfig) (parent : String) (d : Nat) :
    ∀ (cs : List FsTree) (ev : WalkEvent), ev ∈ walkChildren cfg parent d cs →
      ∃ c ∈ cs, ev ∈ walkTree cfg (parent ++ "/" ++ c.name) d c := by
  intro cs
  induction cs with
  | nil =>
    intro ev h
    rw [walkChildren] at h
    exact absurd h (List.not_mem_nil ev)
  | cons c cs ih =>
    intro ev h
    rw [walkChildren] at h
    rcases List.mem_append.mp h with h1 | h2
    · exact ⟨c, List.mem_cons_self c cs, h1⟩
    · obtain ⟨c2, hc2, hev⟩ := ih ev h2
      exact ⟨c2, List.mem_cons_of_mem c hc2, hev⟩

theorem passesFilter_not_hidden (cfg : ScanConfig)
    (h : cfg.include_hidden = false) (nm : String)
    (hp : passesFilter cfg nm = true) : hiddenName nm = false := by
  unfold passesFilter at hp
  simp only [h, Bool.not_false, if_true, Bool.not_eq_true'] at hp
  exact hp

theorem walkTree_ok_event (cfg : ScanConfig) :
    ∀ (t : FsTree) (path : String) (d : Nat) (e : OkEntry),
      WalkEvent.ok e ∈ walkTree cfg path d t →
      OneKind e ∧ passesFilter cfg e.name = true := by
  have key : ∀ (n : Nat) (t : FsTree), sizeOf t ≤ n →
      ∀ (path : String) (d : Nat) (e : OkEntry),
        WalkEvent.ok e ∈ walkTree cfg path d t →
        OneKind e ∧ passesFilter cfg e.name = true := by
    intro n
    induction n using Nat.strong_induction_on with
    | _ n ih =>
      intro t ht path d e hmem
      cases t with
      | file nm m =>
        rw [walkTree] at hmem
        by_cases hf : passesFilter cfg nm = true
        · simp only [hf, if_true, List.mem_singleton] at hmem
          injection hmem with he
          subst he
          exact ⟨Or.inr (Or.inl ⟨rfl, rfl, rfl⟩), hf⟩
        · simp only [hf, if_false] at hmem
          exact absurd hmem (List.not_mem_nil _)
      | dir nm m cs =>
        rw [walkTree] at hmem
        by_cases hf : passesFilter cfg nm = true
        · simp only [hf, if_true] at hmem
          rcases List.mem_cons.mp hmem with heq | htail
          · injection heq with he
            subst he
            exact ⟨Or.inl ⟨rfl, rfl, rfl⟩, hf⟩
          · by_cases hd : d < cfg.max_depth
            · simp only [hd, if_true] at htail
              obtain ⟨c, hc, hev⟩ := walkChildren_mem cfg path (d + 1) cs _ htail
              have hlt : sizeOf c < sizeOf (FsTree.dir nm m cs) :=
                sizeOf_mem_children c hc nm m
              exact ih (sizeOf c) (by omega) c le_rfl _ _ e hev
            · simp only [hd, if_false] at htail
              exact absurd htail (List.not_mem_nil _)
        · simp only [hf, if_false] at hmem
          exact absurd hmem (List.not_mem_nil _)
      | symlink nm m tgt =>
        by_cases hf : passesFilter cfg nm = true
        case neg =>
          rw [Bool.not_eq_true] at hf
          cases tgt with
          | none => simp [walkTree, hf] at hmem
          | some tt => cases tt <;> simp [walkTree, hf] at hmem
        by_cases hs : cfg.follow_symlinks = true
        case neg =>
          rw [Bool.not_eq_true] at hs
          have hleaf : WalkEvent.ok e =
              WalkEvent.ok ⟨nm, path, false, false, true, m, d⟩ := by
            cases tgt with
            | none =>
              simp only [walkTree, hf, hs, if_true, Bool.false_eq_true,
                if_false, List.mem_singleton] at hmem
              exact hmem
            | some tt =>
              cases tt <;>
                simp only [walkTree, hf, hs, if_true, Bool.false_eq_true,
                  if_false, List.mem_singleton] at hmem <;>
                exact hmem
          injection hleaf with he
          subst he
          exact ⟨Or.inr (Or.inr ⟨rfl, rfl, rfl⟩), hf⟩
        cases tgt with
        | none => simp [walkTree, hf, hs] at hmem
        | some tt =>
          cases tt with
          | file n2 m2 =>
            simp [walkTree, hf, hs] at hmem
            subst hmem
            exact ⟨Or.inr (Or.inl ⟨rfl, rfl, rfl⟩), hf⟩
          | dir n2 m2 cs =>
            simp only [walkTree, hf, hs, if_true, List.mem_cons] at hmem
            rcases hmem with heq | htail
            · injection heq with he
              subst he
              exact ⟨Or.inl ⟨rfl, rfl, rfl⟩, hf⟩
            · by_cases hd : d < cfg.max_depth
              · simp only [hd, if_true] at htail
                obtain ⟨c, hc, hev⟩ := walkChildren_mem cfg path (d + 1) cs _ htail
                have hlt : sizeOf c <
                    sizeOf (FsTree.symlink nm m (some (.dir n2 m2 cs))) :=
                  sizeOf_mem_symlink_children c hc nm n2 m m2
                exact ih (sizeOf c) (by omega) c le_rfl _ _ e hev
              · simp only [hd, if_false] at htail
                exact absurd htail (List.not_mem_nil _)
          | symlink n2 m2 t2 => simp [walkTree, hf, hs] at hmem
  intro t
  exact key (sizeOf t) t le_rfl

theorem passesFilter_hidden (cfg : ScanConfig) (h : cfg.include_hidden = false)
    (nm : String) (hh : hiddenName nm = true) : passesFilter cfg nm = false := by
  simp [passesFilter, h, hh]

theorem walkTree_hidden_nil (cfg : ScanConfig) (h : cfg.include_hidden = false)
    (t : FsTree) (path : String) (d : Nat) (hh : hiddenName t.name = true) :
    walkTree cfg path d t = [] := by
  cases t with
  | file nm m =>
    have hp := passesFilter_hidden cfg h nm hh
    simp [walkTree, hp]
  | dir nm m cs =>
    have hp := passesFilter_hidden cfg h nm hh
    simp [walkTree, hp]
  | symlink nm m tgt =>
    have hp := passesFilter_hidden cfg h nm hh
    cases tgt with
    | none => simp [walkTree, hp]
    | some tt => cases tt <;> simp [walkTree, hp]

/-! ## Loop state lemmas -/

theorem okStep_entries (scanId : String) (o : Oracles) (i : Nat)
    (st : LoopState) (e : OkEntry) :
    (okStep scanId o i st e).entries =
      st.entries ++ [buildEntry (o.mkId i) e] := by
  by_cases h1 : e.isDir = true <;> by_cases h2 : e.isFile = true <;>
    by_cases h3 : o.progressDue i = true <;> simp [okStep, h1, h2, h3]

theorem okStep_totalFiles_le (scanId : String) (o : Oracles) (i : Nat)
    (st : LoopState) (e : OkEntry) :
    st.totalFiles ≤ (okStep scanId o i st e).totalFiles ∧
    st.totalDirs ≤ (okStep scanId o i st e).totalDirs ∧
    st.totalSize ≤ (okStep scanId o i st e).totalSize := by
  by_cases h1 : e.isDir = true <;> by_cases h2 : e.isFile = true <;>
    by_cases h3 : o.progressDue i = true <;>
    simp [okStep, h1, h2, h3] <;> try omega

theorem scanLoop_flag_cancelled (scanId : String) (o : Oracles) :
    ∀ (events : List WalkEvent) (i : Nat) (st : LoopState),
      (∃ k, k < events.length ∧ o.checkFlag (i + k) = true) →
      ∃ st2, scanLoop scanId o events i st = .cancelled st2 ∧
        (st2.sent.getLast?.map ScanProgress.status) = some .cancelled := by
  intro events
  induction events with
  | nil =>
    intro i st h
    obtain ⟨k, hk, _⟩ := h
    exact absurd hk (by simp)
  | cons ev rest ih =>
    intro i st h
    obtain ⟨k, hk, hflag⟩ := h
    by_cases h0 : o.checkFlag i = true
    · refine ⟨_, scanLoop_cons_flag scanId o ev rest i st h0, ?_⟩
      simp [List.getLast?_concat, cancelSnapshot]
    · rw [Bool.not_eq_true] at h0
      have hex : ∃ k2, k2 < rest.length ∧ o.checkFlag (i + 1 + k2) = true := by
        cases k with
        | zero =>
          rw [Nat.add_zero] at hflag
          rw [hflag] at h0
          cases h0
        | succ k2 =>
          refine ⟨k2, ?_, ?_⟩
          · simp only [List.length_cons] at hk
            omega
          · have : i + 1 + k2 = i + (k2 + 1) := by omega
            rw [this]
            exact hflag
      cases ev with
      | err =>
        rw [scanLoop_cons_err scanId o rest i st h0]
        exact ih (i + 1) st hex
      | ok e =>
        rw [scanLoop_cons_ok scanId o e rest i st h0]
        exact ih (i + 1) _ hex

theorem execute_scan_events_ok (scanId rootPath : String) (o : Oracles)
    (events : List WalkEvent) (r : ScanResult) (ps : List ScanProgress)
    (h : execute_scan_events scanId rootPath o events = (.ok r, ps)) :
    ∃ st, scanLoop scanId o events 0 initState = .finished st ∧
      r.total_files = st.totalFiles ∧ r.total_directories = st.totalDirs ∧
      r.total_size = st.totalSize ∧ r.entries = st.entries ∧
      r.duration_ms = o.clock events.length ∧ r.status = .completed ∧
      ps = st.sent ++ [finalSnapshot scanId st (o.clock events.length)] := by
  unfold execute_scan_events at h
  cases hres : scanLoop scanId o events 0 initState with
  | cancelled st =>
    rw [hres] at h
    simp at h
  | finished st =>
    rw [hres] at h
    simp only [Prod.mk.injEq] at h
    obtain ⟨h1, h2⟩ := h
    injection h1 with h1
    subst h1
    subst h2
    exact ⟨st, rfl, rfl, rfl, rfl, rfl, rfl, rfl, rfl⟩

theorem scanLoop_finished_entries_pred (scanId : String) (o : Oracles)
    (P : FileEntry → Prop) :
    ∀ (events : List WalkEvent) (i : Nat) (st st2 : LoopState),
      scanLoop scanId o events i st = .finished st2 →
      (∀ (idStr : String) (e : OkEntry), WalkEvent.ok e ∈ events →
        P (buildEntry idStr e)) →
      (∀ x ∈ st.entries, P x) → ∀ x ∈ st2.entries, P x := by
  intro events
  induction events with
  | nil =>
    intro i st st2 h _ hst
    rw [scanLoop_nil] at h
    injection h with h
    subst h
    exact hst
  | cons ev rest ih =>
    intro i st st2 h hev hst
    by_cases h0 : o.checkFlag i = true
    · rw [scanLoop_cons_flag scanId o ev rest i st h0] at h
      cases h
    · rw [Bool.not_eq_true] at h0
      cases ev with
      | err =>
        rw [scanLoop_cons_err scanId o rest i st h0] at h
        exact ih (i + 1) st st2 h
          (fun idStr e he => hev idStr e (List.mem_cons_of_mem _ he)) hst
      | ok e =>
        rw [scanLoop_cons_ok scanId o e rest i st h0] at h
        refine ih (i + 1) _ st2 h
          (fun idStr e2 he => hev idStr e2 (List.mem_cons_of_mem _ he)) ?_
        intro x hx
        rw [okStep_entries] at hx
        rcases List.mem_append.mp hx with hx1 | hx2
        · exact hst x hx1
        · rw [List.mem_singleton] at hx2
          subst hx2
          exact hev (o.mkId i) e (List.mem_cons_self _ _)

theorem scanLoop_finished_entries_append (scanId : String) (o : Oracles) :
    ∀ (events : List WalkEvent) (i : Nat) (st st2 : LoopState),
      scanLoop scanId o events i st = .finished st2 →
      ∃ suffix, st2.entries = st.entries ++ suffix := by
  intro events
  induction events with
  | nil =>
    intro i st st2 h
    rw [scanLoop_nil] at h
    injection h with h
    subst h
    exact ⟨[], by simp⟩
  | cons ev rest ih =>
    intro i st st2 h
    by_cases h0 : o.checkFlag i = true
    · rw [scanLoop_cons_flag scanId o ev rest i st h0] at h
      cases h
    · rw [Bool.not_eq_true] at h0
      cases ev with
      | err =>
        rw [scanLoop_cons_err scanId o rest i st h0] at h
        exact ih (i + 1) st st2 h
      | ok e =>
        rw [scanLoop_cons_ok scanId o e rest i st h0] at h
        obtain ⟨suffix, hs⟩ := ih (i + 1) _ st2 h
        rw [okStep_entries] at hs
        exact ⟨[buildEntry (o.mkId i) e] ++ suffix, by rw [hs, List.append_assoc]⟩

theorem buildEntry_is_file (idStr : String) (e : OkEntry) :
    (buildEntry idStr e).is_file = e.isFile := rfl

theorem buildEntry_is_directory (idStr : String) (e : OkEntry) :
    (buildEntry idStr e).is_directory = e.isDir := rfl

theorem buildEntry_is_symlink (idStr : String) (e : OkEntry) :
    (buildEntry idStr e).is_symlink = e.isSymlink := rfl

theorem buildEntry_size (idStr : String) (e : OkEntry) :
    (buildEntry idStr e).size = (e.meta.map Meta.len).getD 0 := rfl

theorem buildEntry_name (idStr : String) (e : OkEntry) :
    (buildEntry idStr e).name = e.name := rfl

theorem buildEntry_path (idStr : String) (e : OkEntry) :
    (buildEntry idStr e).path = e.path := rfl

theorem buildEntry_depth (idStr : String) (e : OkEntry) :
    (buildEntry idStr e).depth = e.depth := rfl

theorem fileBytes_append_one (l : List FileEntry) (x : FileEntry) :
    fileBytes (l ++ [x]) = fileBytes l + (if x.is_file then x.size else 0) := by
  unfold fileBytes
  rw [List.filter_append, List.map_append, List.sum_append]
  by_cases hx : x.is_file = true <;> simp [hx]

theorem okStep_totalSize (scanId : String) (o : Oracles) (i : Nat)
    (st : LoopState) (e : OkEntry) :
    (okStep scanId o i st e).totalSize =
      st.totalSize +
        (if e.isDir then 0
         else if e.isFile then (e.meta.map Meta.len).getD 0 else 0) := by
  by_cases h1 : e.isDir = true <;> by_cases h2 : e.isFile = true <;>
    by_cases h3 : o.progressDue i = true <;> simp [okStep, h1, h2, h3]

theorem scanLoop_finished_size (scanId : String) (o : Oracles) :
    ∀ (events : List WalkEvent) (i : Nat) (st st2 : LoopState),
      scanLoop scanId o events i st = .finished st2 →
      (∀ e : OkEntry, WalkEvent.ok e ∈ events → OneKind e) →
      fileBytes st.entries = st.totalSize →
      fileBytes st2.entries = st2.totalSize := by
  intro events
  induction events with
  | nil =>
    intro i st st2 h _ hinv
    rw [scanLoop_nil] at h
    injection h with h
    subst h
    exact hinv
  | cons ev rest ih =>
    intro i st st2 h hK hinv
    by_cases h0 : o.checkFlag i = true
    · rw [scanLoop_cons_flag scanId o ev rest i st h0] at h
      cases h
    · rw [Bool.not_eq_true] at h0
      cases ev with
      | err =>
        rw [scanLoop_cons_err scanId o rest i st h0] at h
        exact ih (i + 1) st st2 h
          (fun e he => hK e (List.mem_cons_of_mem _ he)) hinv
      | ok e =>
        rw [scanLoop_cons_ok scanId o e rest i st h0] at h
        refine ih (i + 1) _ st2 h
          (fun e2 he => hK e2 (List.mem_cons_of_mem _ he)) ?_
        have hKe := hK e (List.mem_cons_self _ _)
        rw [okStep_entries, fileBytes_append_one, okStep_totalSize,
          buildEntry_is_file, buildEntry_size]
        rcases hKe with ⟨hd, hf, _⟩ | ⟨hd, hf, _⟩ | ⟨hd, hf, _⟩ <;>
          simp [hd, hf, hinv]

theorem sentInv_initState : SentInv initState := by
  constructor
  · exact List.Pairwise.nil
  · intro p hp
    exact absurd hp (List.not_mem_nil p)

theorem sentInv_step (stOld stNew : LoopState)
    (hmF : stOld.totalFiles ≤ stNew.totalFiles)
    (hmD : stOld.totalDirs ≤ stNew.totalDirs)
    (hmS : stOld.totalSize ≤ stNew.totalSize)
    (hsent : stNew.sent = stOld.sent ∨
      ∃ p, stNew.sent = stOld.sent ++ [p] ∧
        p.files_scanned = stNew.totalFiles ∧
        p.directories_scanned = stNew.totalDirs ∧
        p.bytes_scanned = stNew.totalSize)
    (h : SentInv stOld) : SentInv stNew := by
  obtain ⟨hpw, hbound⟩ := h
  rcases hsent with hsame | ⟨p, happ, hpf, hpd, hps⟩
  · refine ⟨by rw [hsame]; exact hpw, ?_⟩
    intro q hq
    rw [hsame] at hq
    obtain ⟨b1, b2, b3⟩ := hbound q hq
    exact ⟨le_trans b1 hmF, le_trans b2 hmD, le_trans b3 hmS⟩
  · constructor
    · rw [happ, List.pairwise_append]
      refine ⟨hpw, List.pairwise_singleton _ _, ?_⟩
      intro a ha b hb
      rw [List.mem_singleton] at hb
      subst hb
      obtain ⟨b1, b2, b3⟩ := hbound a ha
      exact ⟨by omega, by omega, by omega⟩
    · intro q hq
      rw [happ] at hq
      rcases List.mem_append.mp hq with hq1 | hq2
      · obtain ⟨b1, b2, b3⟩ := hbound q hq1
        exact ⟨le_trans b1 hmF, le_trans b2 hmD, le_trans b3 hmS⟩
      · rw [List.mem_singleton] at hq2
        subst hq2
        exact ⟨le_of_eq hpf, le_of_eq hpd, le_of_eq hps⟩

theorem okStep_sent_shape (scanId : String) (o : Oracles) (i : Nat)
    (st : LoopState) (e : OkEntry) :
    (okStep scanId o i st e).sent = st.sent ∨
    ∃ p, (okStep scanId o i st e).sent = st.sent ++ [p] ∧
      p.files_scanned = (okStep scanId o i st e).totalFiles ∧
      p.directories_scanned = (okStep scanId o i st e).totalDirs ∧
      p.bytes_scanned = (okStep scanId o i st e).totalSize := by
  by_cases h3 : o.progressDue i = true
  · right
    refine ⟨scanningSnapshot scanId e.path (okStep scanId o i st e) (o.clock i),
      ?_, rfl, rfl, rfl⟩
    by_cases h1 : e.isDir = true <;> by_cases h2 : e.isFile = true <;>
      simp [okStep, scanningSnapshot, h1, h2, h3]
  · left
    by_cases h1 : e.isDir = true <;> by_cases h2 : e.isFile = true <;>
      simp [okStep, h1, h2, h3]

theorem okStep_sentInv (scanId : String) (o : Oracles) (i : Nat)
    (st : LoopState) (e : OkEntry) (h : SentInv st) :
    SentInv (okStep scanId o i st e) := by
  obtain ⟨hmF, hmD, hmS⟩ := okStep_totalFiles_le scanId o i st e
  exact sentInv_step st _ hmF hmD hmS (okStep_sent_shape scanId o i st e) h

theorem scanLoop_sentInv (scanId : String) (o : Oracles) :
    ∀ (events : List WalkEvent) (i : Nat) (st : LoopState), SentInv st →
      ∀ st2, (scanLoop scanId o events i st = .cancelled st2 ∨
              scanLoop scanId o events i st = .finished st2) → SentInv st2 := by
  intro events
  induction events with
  | nil =>
    intro i st hst st2 h
    rcases h with h | h <;> rw [scanLoop_nil] at h
    · cases h
    · injection h with h
      subst h
      exact hst
  | cons ev rest ih =>
    intro i st hst st2 h
    by_cases h0 : o.checkFlag i = true
    · rcases h with h | h <;>
        rw [scanLoop_cons_flag scanId o ev rest i st h0] at h
      · injection h with h
        subst h
        refine sentInv_step st _ le_rfl le_rfl le_rfl ?_ hst
        right
        exact ⟨cancelSnapshot scanId st (o.clock i), rfl, rfl, rfl, rfl⟩
      · cases h
    · rw [Bool.not_eq_true] at h0
      cases ev with
      | err =>
        rcases h with h | h <;>
          rw [scanLoop_cons_err scanId o rest i st h0] at h
        · exact ih (i + 1) st hst st2 (Or.inl h)
        · exact ih (i + 1) st hst st2 (Or.inr h)
      | ok e =>
        have hst2 := okStep_sentInv scanId o i st e hst
        rcases h with h | h <;>
          rw [scanLoop_cons_ok scanId o e rest i st h0] at h
        · exact ih (i + 1) _ hst2 st2 (Or.inl h)
        · exact ih (i + 1) _ hst2 st2 (Or.inr h)

theorem relayAux_sublist (elapsedOk : Nat → Bool) :
    ∀ (ps : List ScanProgress) (i : Nat),
      List.Sublist (relayAux elapsedOk i ps) ps := by
  intro ps
  induction ps with
  | nil =>
    intro i
    rw [relayAux]
  | cons p ps ih =>
    intro i
    rw [relayAux]
    split
    · exact List.Sublist.cons₂ p (ih (i + 1))
    · exact List.Sublist.cons p (ih (i + 1))

theorem countP_three {α : Type} (p q s : α → Bool) :
    ∀ (l : List α),
      (∀ x ∈ l, (p x = true ∧ q x = false ∧ s x = false) ∨
                (p x = false ∧ q x = true ∧ s x = false) ∨
                (p x = false ∧ q x = false ∧ s x = true)) →
      l.countP p + l.countP q + l.countP s = l.length := by
  intro l
  induction l with
  | nil => intro _; simp
  | cons x l ih =>
    intro hx
    have h1 := hx x (List.mem_cons_self _ _)
    have hrest := ih fun y hy => hx y (List.mem_cons_of_mem _ hy)
    rcases h1 with ⟨a, b, c⟩ | ⟨a, b, c⟩ | ⟨a, b, c⟩ <;>
      simp [List.countP_cons, a, b, c] <;> omega

theorem scanLoop_single_ok (scanId : String) (o : Oracles) (e : OkEntry)
    (st2 : LoopState)
    (h : scanLoop scanId o [.ok e] 0 initState = .finished st2) :
    st2.entries = [buildEntry (o.mkId 0) e] := by
  by_cases h0 : o.checkFlag 0 = true
  · rw [scanLoop_cons_flag scanId o _ _ 0 initState h0] at h
    cases h
  · rw [Bool.not_eq_true] at h0
    rw [scanLoop_cons_ok scanId o e [] 0 initState h0, scanLoop_nil] at h
    injection h with h
    subst h
    rw [okStep_entries]
    simp [initState]

theorem scanLoop_cons_ok_finished_head (scanId : String) (o : Oracles)
    (e : OkEntry) (rest : List WalkEvent) (st2 : LoopState)
    (h : scanLoop scanId o (.ok e :: rest) 0 initState = .finished st2) :
    st2.entries.head? = some (buildEntry (o.mkId 0) e) := by
  by_cases h0 : o.checkFlag 0 = true
  · rw [scanLoop_cons_flag scanId o _ _ 0 initState h0] at h
    cases h
  · rw [Bool.not_eq_true] at h0
    rw [scanLoop_cons_ok scanId o e rest 0 initState h0] at h
    obtain ⟨suffix, hs⟩ := scanLoop_finished_entries_append scanId o rest 1 _ st2 h
    rw [okStep_entries] at hs
    simp only [initState, List.nil_append] at hs
    rw [hs]
    simp

/-! ## Registry lemmas -/

theorem applyOp_preserves_idle (s : VeloxState) (op : RegOp)
    (h : ∀ p ∈ s.active_scans, p.2.status = ScanStatus.idle) :
    ∀ p ∈ (applyOp s op).active_scans, p.2.status = ScanStatus.idle := by
  cases op with
  | register id rootPath startedAt =>
    intro p hp
    simp only [applyOp, VeloxState.register_scan, List.mem_cons] at hp
    rcases hp with hp | hp
    · subst hp
      rfl
    · exact h p (List.mem_of_mem_filter hp)
  | cancel scanId =>
    intro p hp
    simp only [applyOp, VeloxState.cancel_scan] at hp
    cases hc : s.get_scan scanId with
    | none =>
      rw [hc] at hp
      exact h p hp
    | some sess =>
      rw [hc] at hp
      simp only [List.mem_map] at hp
      obtain ⟨q, hq, hpq⟩ := hp
      have hqs := h q hq
      by_cases hk : q.1 = scanId
      · rw [if_pos hk] at hpq
        subst hpq
        exact hqs
      · rw [if_neg hk] at hpq
        subst hpq
        exact hqs
  | remove scanId =>
    intro p hp
    simp only [applyOp, VeloxState.remove_scan] at hp
    exact h p (List.mem_of_mem_filter hp)

theorem runOps_preserves_idle :
    ∀ (ops : List RegOp) (s : VeloxState),
      (∀ p ∈ s.active_scans, p.2.status = ScanStatus.idle) →
      ∀ p ∈ (runOps s ops).active_scans, p.2.status = ScanStatus.idle := by
  intro ops
  induction ops with
  | nil =>
    intro s h
    rw [runOps]
    exact h
  | cons op ops ih =>
    intro s h
    rw [runOps]
    exact ih (applyOp s op) (applyOp_preserves_idle s op h)

theorem active_scan_count_zero (s : VeloxState)
    (h : ∀ p ∈ s.active_scans, p.2.status = ScanStatus.idle) :
    s.active_scan_count = 0 := by
  unfold VeloxState.active_scan_count
  rw [List.length_eq_zero]
  rw [List.filter_eq_nil_iff]
  intro p hp
  have := h p hp
  simp [this]

theorem find_map_cancel (l : List (String × ScanSession)) (id : String) :
    ((l.map fun p => if p.1 = id then (p.1, p.2.cancel) else p).find?
        fun p => p.1 = id) =
      (l.find? fun p => p.1 = id).map fun p => (p.1, p.2.cancel) := by
  induction l with
  | nil => simp
  | cons p l ih =>
    by_cases hp : p.1 = id
    · simp [List.find?, hp]
    · simp only [List.map_cons, if_neg hp]
      rw [List.find?_cons_of_neg, List.find?_cons_of_neg, ih]
      · simp [hp]
      · simp [hp]

/-! ## Claim theorems -/

/-- C2: for every completed scan, the returned result's total_size equals
the sum of `size` over exactly those entries with `is_file = true`;
directory and symlink entry sizes contribute nothing to it. -/
theorem scan_total_size_eq_file_bytes (cfg : ScanConfig)
    (scanId rootPath : String) (o : Oracles) (root : FsTree)
    (r : ScanResult) (ps : List ScanProgress)
    (h : execute_scan cfg scanId rootPath o root = (.ok r, ps)) :
    r.total_size = fileBytes r.entries := by
  unfold execute_scan at h
  obtain ⟨st, hloop, hTF, hTD, hTS, hE, hD, hSt, hPS⟩ :=
    execute_scan_events_ok scanId rootPath o _ r ps h
  rw [hTS, hE]
  exact (scanLoop_finished_size scanId o _ 0 initState st hloop
    (fun e he => (walkTree_ok_event cfg root rootPath 0 e he).1)
    (by simp [initState, fileBytes])).symm

/-- Witness for C2 at the spec's worked scenario (files of 10, 20, 30 and
5 bytes). -/
theorem scan_total_size_eq_file_bytes_witness :
    execute_scan ScanConfig.default "s" "/r" quietOracle demoTree =
      (.ok demoResult, demoPair.2) ∧
    demoResult.total_size = fileBytes demoResult.entries := by
  constructor
  · rfl
  · exact scan_total_size_eq_file_bytes ScanConfig.default "s" "/r" quietOracle
      demoTree demoResult demoPair.2 (by rfl)

/-- C10: the terminal Completed snapshot of a successful scan agrees with
the returned result on every cumulative field and on elapsed time. -/
theorem scan_final_snapshot_agrees (cfg : ScanConfig)
    (scanId rootPath : String) (o : Oracles) (root : FsTree)
    (r : ScanResult) (ps : List ScanProgress)
    (h : execute_scan cfg scanId rootPath o root = (.ok r, ps)) :
    (ps.getLast?.map ScanProgress.status) = some .completed ∧
    (ps.getLast?.map ScanProgress.files_scanned) = some r.total_files ∧
    (ps.getLast?.map ScanProgress.directories_scanned) =
      some r.total_directories ∧
    (ps.getLast?.map ScanProgress.bytes_scanned) = some r.total_size ∧
    (ps.getLast?.map ScanProgress.estimated_total) =
      some (some (r.total_files + r.total_directories)) ∧
    (ps.getLast?.map ScanProgress.elapsed_ms) = some r.duration_ms := by
  unfold execute_scan at h
  obtain ⟨st, hloop, hTF, hTD, hTS, hE, hD, hSt, hPS⟩ :=
    execute_scan_events_ok scanId rootPath o _ r ps h
  rw [hPS, List.getLast?_concat]
  rw [hTF, hTD, hTS, hD]
  exact ⟨rfl, rfl, rfl, rfl, rfl, rfl⟩

/-- Witness for C10 on the worked scenario. -/
theorem scan_final_snapshot_agrees_witness :
    execute_scan ScanConfig.default "s" "/r" quietOracle demoTree =
      (.ok demoResult, demoPair.2) ∧
    (demoPair.2.getLast?.map ScanProgress.status) = some .completed ∧
    (demoPair.2.getLast?.map ScanProgress.files_scanned) =
      some demoResult.total_files := by
  have h := scan_final_snapshot_agrees ScanConfig.default "s" "/r" quietOracle
    demoTree demoResult demoPair.2 (by rfl)
  exact ⟨by rfl, h.1, h.2.1⟩

theorem execute_scan_events_sent_pairwise (scanId rootPath : String)
    (o : Oracles) (events : List WalkEvent) :
    ((execute_scan_events scanId rootPath o events).2).Pairwise ProgLE := by
  unfold execute_scan_events
  cases hres : scanLoop scanId o events 0 initState with
  | cancelled st =>
    have hinv := scanLoop_sentInv scanId o events 0 initState sentInv_initState
      st (Or.inl hres)
    simpa using hinv.1
  | finished st =>
    have hinv := scanLoop_sentInv scanId o events 0 initState sentInv_initState
      st (Or.inr hres)
    have hstep := sentInv_step st
      { st with sent := st.sent ++ [finalSnapshot scanId st (o.clock events.length)] }
      le_rfl le_rfl le_rfl
      (Or.inr ⟨finalSnapshot scanId st (o.clock events.length), rfl, rfl, rfl, rfl⟩)
      hinv
    simpa using hstep.1

/-- C8: within one scan, the snapshots sent on the FIFO progress channel,
and the subsequence of them the relay forwards, are in non-decreasing
order of files_scanned, directories_scanned and bytes_scanned. -/
theorem scan_progress_monotone (cfg : ScanConfig) (scanId rootPath : String)
    (o : Oracles) (root : FsTree) (elapsedOk : Nat → Bool) :
    ((execute_scan cfg scanId rootPath o root).2).Pairwise ProgLE ∧
    (relay elapsedOk (execute_scan cfg scanId rootPath o root).2).Pairwise
      ProgLE := by
  have hmain := execute_scan_events_sent_pairwise scanId rootPath o
    (walkTree cfg rootPath 0 root)
  refine ⟨hmain, ?_⟩
  exact List.Pairwise.sublist (relayAux_sublist elapsedOk _ 0) hmain

/-- C1 counterexample: with include_hidden = false a hidden root produces
an empty walk, so a scan whose cancellation flag is set from the very
start (before the traversal even begins, hence before it completes) still
returns a ScanResult, and the last snapshot has status Completed, not
Cancelled. -/
theorem scan_cancel_flag_counterexample :
    (execute_scan ScanConfig.default "s" "/.h" cancelledOracle
        hiddenEmptyTree).1.isOk = true ∧
    ((execute_scan ScanConfig.default "s" "/.h" cancelledOracle
        hiddenEmptyTree).2.getLast?.map ScanProgress.status) =
      some .completed := by
  exact ⟨rfl, rfl⟩

/-- C1 (amended): whenever the cancellation flag reads true at one of the
per-node checks — that is, the flag is set while at least one walker event
is still to be processed — the scan returns the ScanCancelled error and
never a ScanResult (the accumulated FileEntry records are discarded with
it), and the last snapshot sent on the channel has status Cancelled.  (A
scan whose walker yields no events, e.g. a hidden root under
include_hidden = false, completes normally regardless of the flag.) -/
theorem scan_cancelled_when_flag_observed (cfg : ScanConfig)
    (scanId rootPath : String) (o : Oracles) (root : FsTree)
    (h : ∃ k, k < (walkTree cfg rootPath 0 root).length ∧
      o.checkFlag k = true) :
    (execute_scan cfg scanId rootPath o root).1 = .error .scanCancelled ∧
    ((execute_scan cfg scanId rootPath o root).2.getLast?.map
        ScanProgress.status) = some .cancelled := by
  obtain ⟨k, hk, hflag⟩ := h
  obtain ⟨st2, hres, hlast⟩ := scanLoop_flag_cancelled scanId o
    (walkTree cfg rootPath 0 root) 0 initState
    ⟨k, hk, by rw [Nat.zero_add]; exact hflag⟩
  unfold execute_scan execute_scan_events
  simp only [hres]
  exact ⟨trivial, hlast⟩

/-- Witness for C1 (amended): the flag is set from the start and the walk
of `demoTree` yields events, so the scan is cancelled. -/
theorem scan_cancelled_when_flag_observed_witness :
    (execute_scan ScanConfig.default "s" "/r" cancelledOracle demoTree).1 =
      .error .scanCancelled ∧
    ((execute_scan ScanConfig.default "s" "/r" cancelledOracle
        demoTree).2.getLast?.map ScanProgress.status) = some .cancelled :=
  scan_cancelled_when_flag_observed ScanConfig.default "s" "/r"
    cancelledOracle demoTree ⟨0, by decide, rfl⟩

/-- C4: with include_hidden = false, no entry of a completed scan has a
hidden name (one starting with a dot), and a hidden-named subtree is
pruned whole by the filter — walking it yields no events at all, so its
descendants are never visited and appear in no result. -/
theorem scan_excludes_hidden (cfg : ScanConfig) (scanId rootPath : String)
    (o : Oracles) (root : FsTree) (r : ScanResult) (ps : List ScanProgress)
    (hh : cfg.include_hidden = false)
    (h : execute_scan cfg scanId rootPath o root = (.ok r, ps)) :
    (∀ x ∈ r.entries, hiddenName x.name = false) ∧
    (∀ (sub : FsTree) (path : String) (d : Nat), hiddenName sub.name = true →
      walkTree cfg path d sub = []) := by
  constructor
  · unfold execute_scan at h
    obtain ⟨st, hloop, _, _, _, hE, _, _, _⟩ :=
      execute_scan_events_ok scanId rootPath o _ r ps h
    rw [hE]
    refine scanLoop_finished_entries_pred scanId o
      (fun y => hiddenName y.name = false) _ 0 initState st hloop ?_ ?_
    · intro idStr e he
      rw [buildEntry_name]
      exact passesFilter_not_hidden cfg hh e.name
        (walkTree_ok_event cfg root rootPath 0 e he).2
    · intro y hy
      simp [initState] at hy
  · intro sub path d hsub
    exact walkTree_hidden_nil cfg hh sub path d hsub

/-- Witness for C4: the scan of a tree with a hidden subdirectory has no
hidden-named entries, and walking the hidden subdirectory itself yields
nothing. -/
theorem scan_excludes_hidden_witness :
    (hiddenScanResult.entries.all fun x => !(hiddenName x.name)) = true ∧
    walkTree ScanConfig.default "/r/.git" 1
      (.dir ".git" (some ⟨64, none, none⟩)
        [.file "cfg" (some ⟨9, none, none⟩)]) = [] := by
  have h := scan_excludes_hidden ScanConfig.default "s" "/r" quietOracle
    hiddenSubTree hiddenScanResult hiddenScanPair.2 rfl (by rfl)
  constructor
  · rw [List.all_eq_true]
    intro x hx
    have := h.1 x hx
    simp [this]
  · exact h.2 (.dir ".git" (some ⟨64, none, none⟩)
      [.file "cfg" (some ⟨9, none, none⟩)]) "/r/.git" 1 rfl

/-- C3 counterexample: a completed scan of a root holding one unfollowed
symlink has two entries but only one with is_directory and none with
is_file, so the directory and file counts do not add up to the total. -/
theorem scan_kind_count_counterexample :
    (execute_scan ScanConfig.default "s" "/r" quietOracle symTree).1 =
      .ok symResult ∧
    symResult.entries.length = 2 ∧
    ¬((symResult.entries.countP fun e => e.is_directory) +
      (symResult.entries.countP fun e => e.is_file) =
        symResult.entries.length) := by
  refine ⟨rfl, rfl, by decide⟩

/-- C3 (amended): in every completed scan each entry carries exactly one
of the three marks, so the number of directory entries plus the number of
file entries plus the number of (unfollowed) symlink entries — symlinks
counting once as leaves that are neither directory nor file — equals the
total number of entries. -/
theorem scan_kind_counts (cfg : ScanConfig) (scanId rootPath : String)
    (o : Oracles) (root : FsTree) (r : ScanResult) (ps : List ScanProgress)
    (h : execute_scan cfg scanId rootPath o root = (.ok r, ps)) :
    (r.entries.countP fun e => e.is_directory) +
    (r.entries.countP fun e => e.is_file) +
    (r.entries.countP fun e => e.is_symlink) = r.entries.length := by
  unfold execute_scan at h
  obtain ⟨st, hloop, _, _, _, hE, _, _, _⟩ :=
    execute_scan_events_ok scanId rootPath o _ r ps h
  rw [hE]
  apply countP_three
  refine scanLoop_finished_entries_pred scanId o _ _ 0 initState st hloop ?_ ?_
  · intro idStr e he
    have hk := (walkTree_ok_event cfg root rootPath 0 e he).1
    rcases hk with ⟨a, b, c⟩ | ⟨a, b, c⟩ | ⟨a, b, c⟩
    · exact Or.inl (by simp [buildEntry, a, b, c])
    · exact Or.inr (Or.inl (by simp [buildEntry, a, b, c]))
    · exact Or.inr (Or.inr (by simp [buildEntry, a, b, c]))
  · intro y hy
    simp [initState] at hy

/-- Witness for C3 (amended) on the symlink scenario. -/
theorem scan_kind_counts_witness :
    execute_scan ScanConfig.default "s" "/r" quietOracle symTree =
      (.ok symResult, symPair.2) ∧
    (symResult.entries.countP fun e => e.is_directory) +
    (symResult.entries.countP fun e => e.is_file) +
    (symResult.entries.countP fun e => e.is_symlink) =
      symResult.entries.length := by
  constructor
  · rfl
  · exact scan_kind_counts ScanConfig.default "s" "/r" quietOracle symTree
      symResult symPair.2 (by rfl)

/-- C5 counterexample: a directory whose metadata reports 4096 bytes
produces a FileEntry with is_directory = true and size = 4096, not 0. -/
theorem dir_entry_size_counterexample :
    (execute_scan ScanConfig.default "s" "/r" quietOracle meta4096Tree).1 =
      .ok metaResult ∧
    (metaResult.entries.head?.map FileEntry.is_directory) = some true ∧
    (metaResult.entries.head?.map FileEntry.size) = some 4096 ∧
    ¬(metaResult.entries.head?.map FileEntry.size) = some 0 := by
  refine ⟨rfl, rfl, rfl, by decide⟩

theorem scanLoop_finished_entries_map {α : Type} (scanId : String)
    (o : Oracles) (f : FileEntry → α) (g : OkEntry → α)
    (hfg : ∀ (idStr : String) (e : OkEntry), f (buildEntry idStr e) = g e) :
    ∀ (events : List WalkEvent) (i : Nat) (st st2 : LoopState),
      scanLoop scanId o events i st = .finished st2 →
      st2.entries.map f = st.entries.map f ++ (okEvents events).map g := by
  intro events
  induction events with
  | nil =>
    intro i st st2 h
    rw [scanLoop_nil] at h
    injection h with h
    subst h
    simp [okEvents]
  | cons ev rest ih =>
    intro i st st2 h
    by_cases h0 : o.checkFlag i = true
    · rw [scanLoop_cons_flag scanId o ev rest i st h0] at h
      cases h
    · rw [Bool.not_eq_true] at h0
      cases ev with
      | err =>
        rw [scanLoop_cons_err scanId o rest i st h0] at h
        rw [ih (i + 1) st st2 h]
        simp [okEvents]
      | ok e =>
        rw [scanLoop_cons_ok scanId o e rest i st h0] at h
        rw [ih (i + 1) _ st2 h, okStep_entries]
        simp [okEvents, hfg]

/-- C5 (amended): in every completed scan, every FileEntry records
size = the metadata-reported length with fallback 0 when metadata cannot
be read: the sizes of the entries are exactly, in order, the
metadata lengths (getD 0) of the walker's readable events, and the
directory marks line up the same way — so a directory entry carries its
filesystem-reported metadata length, not necessarily 0. -/
theorem entry_size_from_metadata (cfg : ScanConfig)
    (scanId rootPath : String) (o : Oracles) (root : FsTree)
    (r : ScanResult) (ps : List ScanProgress)
    (h : execute_scan cfg scanId rootPath o root = (.ok r, ps)) :
    r.entries.map FileEntry.size =
      (okEvents (walkTree cfg rootPath 0 root)).map
        (fun e => (e.meta.map Meta.len).getD 0) ∧
    r.entries.map FileEntry.is_directory =
      (okEvents (walkTree cfg rootPath 0 root)).map OkEntry.isDir := by
  unfold execute_scan at h
  obtain ⟨st, hloop, _, _, _, hE, _, _, _⟩ :=
    execute_scan_events_ok scanId rootPath o _ r ps h
  constructor
  · rw [hE, scanLoop_finished_entries_map scanId o FileEntry.size
      (fun e => (e.meta.map Meta.len).getD 0) buildEntry_size _ 0 initState
      st hloop]
    rfl
  · rw [hE, scanLoop_finished_entries_map scanId o FileEntry.is_directory
      OkEntry.isDir buildEntry_is_directory _ 0 initState st hloop]
    rfl

/-- Witness for C5 (amended): over `fallbackTree` the readable root
directory records its 4096-byte metadata length and the file with
unreadable metadata falls back to 0. -/
theorem entry_size_from_metadata_witness :
    execute_scan ScanConfig.default "s" "/r" quietOracle fallbackTree =
      (.ok fallbackResult, fallbackPair.2) ∧
    fallbackResult.entries.map FileEntry.size =
      (okEvents (walkTree ScanConfig.default "/r" 0 fallbackTree)).map
        (fun e => (e.meta.map Meta.len).getD 0) ∧
    fallbackResult.entries.map FileEntry.size = [4096, 0] := by
  refine ⟨by rfl, ?_, by rfl⟩
  exact (entry_size_from_metadata ScanConfig.default "s" "/r" quietOracle
    fallbackTree fallbackResult fallbackPair.2 (by rfl)).1

/-- C9 counterexample: a max_depth = 0 scan of a valid (hidden) root
directory with include_hidden = false completes with zero entries, not
exactly one. -/
theorem max_depth_zero_counterexample :
    (execute_scan depth0Cfg "s" "/.h" quietOracle hiddenTree).1 =
      .ok depth0HiddenResult ∧
    depth0HiddenResult.entries.length = 0 ∧
    ¬ depth0HiddenResult.entries.length = 1 := by
  refine ⟨rfl, rfl, by decide⟩

/-- C9 (amended): with max_depth = 0 a completed scan of a directory root
yields at most the root itself and never visits a descendant: exactly one
entry — the root, at the root path, depth 0, marked a directory — when the
root passes the hidden filter, and no entries at all when the filter
rejects the root's name. -/
theorem max_depth_zero_root_only (cfg : ScanConfig)
    (scanId rootPath : String) (o : Oracles) (nm : String)
    (m : Option Meta) (cs : List FsTree) (r : ScanResult)
    (ps : List ScanProgress) (hd : cfg.max_depth = 0)
    (h : execute_scan cfg scanId rootPath o (.dir nm m cs) = (.ok r, ps)) :
    (passesFilter cfg nm = true →
      r.entries.length = 1 ∧
      (r.entries.head?.map FileEntry.path) = some rootPath ∧
      (r.entries.head?.map FileEntry.depth) = some 0 ∧
      (r.entries.head?.map FileEntry.is_directory) = some true) ∧
    (passesFilter cfg nm = false → r.entries = []) := by
  constructor
  · intro hf
    have hw : walkTree cfg rootPath 0 (.dir nm m cs) =
        [.ok ⟨nm, rootPath, true, false, false, m, 0⟩] := by
      rw [walkTree, if_pos hf, hd]
      simp
    unfold execute_scan at h
    rw [hw] at h
    obtain ⟨st, hloop, _, _, _, hE, _, _, _⟩ :=
      execute_scan_events_ok scanId rootPath o _ r ps h
    have hentries := scanLoop_single_ok scanId o _ st hloop
    rw [hE, hentries]
    exact ⟨rfl, rfl, rfl, rfl⟩
  · intro hf
    have hw : walkTree cfg rootPath 0 (.dir nm m cs) = [] := by
      rw [walkTree, if_neg (by simp [hf])]
    unfold execute_scan at h
    rw [hw] at h
    obtain ⟨st, hloop, _, _, _, hE, _, _, _⟩ :=
      execute_scan_events_ok scanId rootPath o _ r ps h
    rw [scanLoop_nil] at hloop
    injection hloop with hloop
    subst hloop
    rw [hE]
    rfl

/-- Witness for C9 (amended): the max_depth = 0 scan of a visible root
with one child yields exactly the root entry. -/
theorem max_depth_zero_root_only_witness :
    depth0Cfg.max_depth = 0 ∧
    depth0Result.entries.length = 1 ∧
    (depth0Result.entries.head?.map FileEntry.path) = some "/r" := by
  have h := max_depth_zero_root_only depth0Cfg "s" "/r" quietOracle "r"
    (some ⟨64, none, none⟩) [.file "a.txt" (some ⟨5, none, none⟩)]
    depth0Result depth0Pair.2 rfl (by rfl)
  obtain ⟨h1, _⟩ := h
  obtain ⟨hl, hp, _, _⟩ := h1 (by decide)
  exact ⟨rfl, hl, hp⟩

/-- C6 (code-bug evidence): nothing in the repository ever writes a
session's status after `ScanSession::new` sets it to Idle, so every
registry state reachable through the command layer's operations
(register, cancel, remove) holds only Idle sessions and
active_scan_count is always 0 — the claimed Idle → Scanning transition at
walk start, and the observation of in-flight sessions as Scanning, never
happen. -/
theorem registry_sessions_never_scanning (ops : List RegOp) :
    (runOps VeloxState.new ops).active_scan_count = 0 ∧
    ((runOps VeloxState.new ops).active_scans.all
      fun p => p.2.status == ScanStatus.idle) = true := by
  have hidle := runOps_preserves_idle ops VeloxState.new
    (by intro p hp; simp [VeloxState.new] at hp)
  constructor
  · exact active_scan_count_zero _ hidle
  · rw [List.all_eq_true]
    intro p hp
    have := hidle p hp
    simp [this]

/-- C7: VeloxState::cancel_scan returns exactly whether the session
existed; on a hit it sets that session's cancellation flag, on a miss it
changes no state. -/
theorem cancel_scan_spec (s : VeloxState) (scanId : String) :
    ((s.cancel_scan scanId).1 = (s.get_scan scanId).isSome) ∧
    (s.get_scan scanId = none → (s.cancel_scan scanId).2 = s) ∧
    (∀ sess, s.get_scan scanId = some sess →
      ((s.cancel_scan scanId).2).get_scan scanId = some sess.cancel) := by
  refine ⟨?_, ?_, ?_⟩
  · unfold VeloxState.cancel_scan
    cases hc : s.get_scan scanId <;> simp [hc]
  · intro hn
    unfold VeloxState.cancel_scan
    rw [hn]
  · intro sess hsome
    unfold VeloxState.cancel_scan
    rw [hsome]
    show VeloxState.get_scan { active_scans := _ } scanId = some sess.cancel
    unfold VeloxState.get_scan at hsome ⊢
    rw [find_map_cancel]
    cases hf : s.active_scans.find? (fun p => p.1 = scanId) with
    | none =>
      rw [hf] at hsome
      simp at hsome
    | some q =>
      rw [hf] at hsome
      simp only [Option.map_some'] at hsome ⊢
      injection hsome with hsome
      rw [hsome]

/-- Witness for C7: cancelling a registered session returns true and flags
it; cancelling an unknown id returns false and leaves the state alone. -/
theorem cancel_scan_spec_witness :
    ((VeloxState.new.register_scan
        (ScanSession.new "a" "/r" "t")).cancel_scan "a").1 = true ∧
    ((VeloxState.new.register_scan
        (ScanSession.new "a" "/r" "t")).cancel_scan "b").1 = false ∧
    ((VeloxState.new.register_scan
        (ScanSession.new "a" "/r" "t")).cancel_scan "b").2 =
      VeloxState.new.register_scan (ScanSession.new "a" "/r" "t") := by
  have ha := cancel_scan_spec
    (VeloxState.new.register_scan (ScanSession.new "a" "/r" "t")) "a"
  have hb := cancel_scan_spec
    (VeloxState.new.register_scan (ScanSession.new "a" "/r" "t")) "b"
  refine ⟨?_, ?_, ?_⟩
  · rw [ha.1]
    rfl
  · rw [hb.1]
    rfl
  · exact hb.2.1 (by rfl)
